import Mathlib

/-!
Verification of the order-fulfillment saga of the order service
(`internal/usecase` `orderUseCase.CreateOrder`, `UpdateOrderStatus`,
`ListOrdersByUserID`, the postgres repository normalisation and the HTTP
handler's query-parameter handling), shallowly embedded in Lean.

Remote collaborators are modelled by oracles:
  * `inv : Inv` is the inventory read table (`GetProduct`);
  * `updOk : UpdOracle` decides whether a given `UpdateStock` call succeeds
    (the client additionally rejects negative values before the remote call,
    see `doUpdate`);
  * `storeOk`/`repoOk : Bool` decide whether the order-store write succeeds.
Every inventory interaction is recorded in a trace of `Event`s, so that
"no write occurs" and "the compensation call carries value v" are statable.
Go's `map[int]productCheckInfo` is modelled as an association list keyed in
first-insertion order (a deterministic rendering of map iteration).
-/

namespace OrderSvc

/-- Mirrors `clients.Product` (id, price, stock); the decimal price field is
modelled as an integer since the saga never computes with it, only copies and
compares it. -/
structure Product where
  id : Int
  price : Int
  stock : Int
deriving DecidableEq, Repr

/-- Mirrors `domain.OrderItem`. -/
structure OrderItem where
  productID : Int
  quantity : Int
  price : Int
deriving DecidableEq, Repr

/-- `domain.OrderStatus` is a Go string type; duck-typed comparisons in the
source are kept as string comparisons. -/
abbrev OrderStatus := String

def StatusPending : OrderStatus := "pending"

def StatusCompleted : OrderStatus := "completed"

def StatusCancelled : OrderStatus := "cancelled"

/-- Mirrors `domain.IsValidStatus`. -/
def IsValidStatus (s : OrderStatus) : Bool :=
  s == StatusPending || s == StatusCompleted || s == StatusCancelled

/-- Mirrors `domain.Order` (timestamps omitted: the saga never branches on
them). -/
structure Order where
  id : Int
  userID : Int
  items : List OrderItem
  status : OrderStatus
deriving DecidableEq, Repr

/-- One remote inventory interaction: a `GetProduct` read or an
`UpdateStock` write, with its outcome. -/
inductive Event where
  | read (pid : Int) (ok : Bool)
  | write (pid : Int) (newStock : Int) (ok : Bool)
deriving DecidableEq, Repr

def Event.isWrite : Event → Bool
  | .read _ _ => false
  | .write _ _ _ => true

/-- The product ids of the `GetProduct` reads of a trace, in order. -/
def readPids (evs : List Event) : List Int :=
  evs.filterMap fun e =>
    match e with
    | .read pid _ => some pid
    | .write _ _ _ => none

/-- The inventory read table: `GetProduct` results (`none` = the call fails,
e.g. product not found). -/
abbrev Inv := Int → Option Product

/-- Oracle deciding whether the remote `UpdateProduct` call succeeds for a
given product id and absolute stock value. -/
abbrev UpdOracle := Int → Int → Bool

/-- Mirrors `inventoryGRPCClient.UpdateStock`: a negative value is rejected
client-side before any remote call; otherwise the remote outcome decides. -/
def doUpdate (updOk : UpdOracle) (pid v : Int) : Bool :=
  if v < 0 then false else updOk pid v

/-- The inventory state after a successful absolute stock write. -/
def setStockInv (inv : Inv) (pid : Int) (v : Int) : Inv :=
  fun q => if q = pid then (inv q).map (fun p => { p with stock := v }) else inv q

def applyEvent (inv : Inv) : Event → Inv
  | .read _ _ => inv
  | .write pid v ok => if ok then setStockInv inv pid v else inv

/-- The inventory state after a trace of interactions. -/
def applyEvents (inv : Inv) (evs : List Event) : Inv :=
  evs.foldl applyEvent inv

/-- The distinct failure modes of `orderUseCase.CreateOrder`, one per
`return nil, err` site. -/
inductive CreateErr where
  | invalidUserID
  | emptyItems
  | invalidProductID (i : Nat)
  | invalidQuantity (i : Nat)
  | negativePrice (i : Nat)
  | invalidStatus
  | inventoryCheckFailed (pid : Int)
  | insufficientStock (pid : Int)
  | reservationFailed (pid : Int)
  | persistenceFailed
deriving DecidableEq, Repr

/-- The errors produced by the validation prologue of
`orderUseCase.CreateOrder` (spec taxonomy: `ValidationError`). -/
def CreateErr.isValidationErr : CreateErr → Bool
  | .invalidUserID => true
  | .emptyItems => true
  | .invalidProductID _ => true
  | .invalidQuantity _ => true
  | .negativePrice _ => true
  | .invalidStatus => true
  | _ => false

/-- The per-item validation loop of `orderUseCase.CreateOrder` (product id,
quantity, price checked in that order, items in order, index reported). -/
def validateItems : Nat → List OrderItem → Option CreateErr
  | _, [] => none
  | i, item :: rest =>
    if item.productID ≤ 0 then some (.invalidProductID i)
    else if item.quantity ≤ 0 then some (.invalidQuantity i)
    else if item.price < 0 then some (.negativePrice i)
    else validateItems (i + 1) rest

/-- The validation prologue of `orderUseCase.CreateOrder`: user id, item
list, per-item checks, then the status rule (an empty status defaults to
`pending`; any other non-pending status is rejected). -/
def validateOrder (o : Order) : Option CreateErr :=
  if o.userID ≤ 0 then some .invalidUserID
  else if o.items.isEmpty then some .emptyItems
  else
    match validateItems 0 o.items with
    | some e => some e
    | none =>
        if o.status == "" || o.status == StatusPending then none
        else some .invalidStatus

/-- Mirrors `productCheckInfo`: the product snapshot kept for a distinct
product id (the first read survives; only the aggregate quantity grows). -/
structure CheckEntry where
  pid : Int
  product : Product
  orderQuantity : Int
deriving DecidableEq, Repr

/-- Association-list lookup for the `productsInfo` map. -/
def lookupEntry : List CheckEntry → Int → Option CheckEntry
  | [], _ => none
  | e :: rest, pid => if e.pid = pid then some e else lookupEntry rest pid

/-- The aggregate quantity recorded so far for a product id (0 if absent). -/
def entryQty (acc : List CheckEntry) (pid : Int) : Int :=
  match lookupEntry acc pid with
  | some e => e.orderQuantity
  | none => 0

/-- Adds a quantity to the existing entry of a product id, keeping the
first-read product snapshot (mirrors `existing.OrderQuantity += ...`). -/
def bumpEntry : List CheckEntry → Int → Int → List CheckEntry
  | [], _, _ => []
  | e :: rest, pid, q =>
    if e.pid = pid then { e with orderQuantity := e.orderQuantity + q } :: rest
    else e :: bumpEntry rest pid q

/-- The `productsInfo` update for one line item: add the quantity to an
existing entry, or record a new entry with the read product snapshot. -/
def stepAcc (acc : List CheckEntry) (pid : Int) (p : Product) (q : Int) :
    List CheckEntry :=
  match lookupEntry acc pid with
  | some _ => bumpEntry acc pid q
  | none => acc ++ [⟨pid, p, q⟩]

/-- The check-and-aggregate loop of `orderUseCase.CreateOrder`: for each line
item, a fresh `GetProduct` read, the price stamp, the running per-product
aggregate compared against the read stock, and the `productsInfo` update.
Returns the trace of reads and, on success, the price-stamped items plus the
final aggregate map. -/
def checkPhase (inv : Inv) :
    List OrderItem → List CheckEntry →
    List Event × Except CreateErr (List OrderItem × List CheckEntry)
  | [], acc => ([], .ok ([], acc))
  | item :: rest, acc =>
    match inv item.productID with
    | none => ([.read item.productID false], .error (.inventoryCheckFailed item.productID))
    | some p =>
      if p.stock < item.quantity + entryQty acc item.productID then
        ([.read item.productID true], .error (.insufficientStock item.productID))
      else
        match checkPhase inv rest (stepAcc acc item.productID p item.quantity) with
        | (evs, .error e) => (.read item.productID true :: evs, .error e)
        | (evs, .ok (items', accF)) =>
            (.read item.productID true :: evs,
             .ok ({ item with price := p.price } :: items', accF))

/-- The rollback loop of `orderUseCase.CreateOrder`: every already-decreased
product gets an `UpdateStock` call restoring the stock read in the check
phase; failures are only logged (the outcome is recorded but ignored). -/
def compensate (updOk : UpdOracle) (entries : List CheckEntry) : List Event :=
  entries.map fun e => .write e.pid e.product.stock (doUpdate updOk e.pid e.product.stock)

/-- The reservation loop of `orderUseCase.CreateOrder`: one `UpdateStock`
per distinct product, to `stockAtCheck - aggregate`; on the first failure the
already-decreased prefix is compensated and the failing product id is
returned as the error. -/
def reservePhase (updOk : UpdOracle) :
    List CheckEntry → List CheckEntry → List Event × Except Int (List CheckEntry)
  | [], done => ([], .ok done)
  | e :: rest, done =>
    if doUpdate updOk e.pid (e.product.stock - e.orderQuantity) then
      match reservePhase updOk rest (done ++ [e]) with
      | (evs, res) => (.write e.pid (e.product.stock - e.orderQuantity) true :: evs, res)
    else
      (.write e.pid (e.product.stock - e.orderQuantity) false :: compensate updOk done,
       .error e.pid)

/-- `orderUseCase.CreateOrder`: validation, check/aggregate phase,
reservation phase, persistence (`storeOk` = whether `orderRepo.CreateOrder`
succeeds; on failure all reserved products are compensated). Returns the
full inventory-interaction trace and the result. -/
def createOrder (inv : Inv) (updOk : UpdOracle) (storeOk : Bool) (order : Order) :
    List Event × Except CreateErr Order :=
  match validateOrder order with
  | some e => ([], .error e)
  | none =>
    match checkPhase inv order.items [] with
    | (evs1, .error e) => (evs1, .error e)
    | (evs1, .ok (items', acc)) =>
      match reservePhase updOk acc [] with
      | (evs2, .error pid) => (evs1 ++ evs2, .error (.reservationFailed pid))
      | (evs2, .ok decreased) =>
        if storeOk then
          (evs1 ++ evs2, .ok { order with items := items', status := StatusPending })
        else
          (evs1 ++ evs2 ++ compensate updOk decreased, .error .persistenceFailed)

/-- Total quantity requested for a product id across all line items. -/
def totalRequested : List OrderItem → Int → Int
  | [], _ => 0
  | it :: rest, pid =>
      (if it.productID = pid then it.quantity else 0) + totalRequested rest pid

/-- The distinct failure modes of `orderUseCase.UpdateOrderStatus`. -/
inductive UpdateErr where
  | invalidOrderID
  | invalidTargetStatus
  | orderNotFound
  | cannotCancelCompleted
  | cannotChangeCancelled
  | updateFailed
deriving DecidableEq, Repr

/-- The restock loop of `orderUseCase.UpdateOrderStatus` on genuine
cancellation: for every item, a fresh `GetProduct` read, then an
`UpdateStock` to `stock + quantity`; a failing read or write is only logged
and the loop continues with the remaining items. The inventory state is
threaded so a later read sees an earlier successful write. -/
def restockItems (inv : Inv) (updOk : UpdOracle) :
    List OrderItem → List Event × Inv
  | [] => ([], inv)
  | item :: rest =>
    match inv item.productID with
    | none =>
      match restockItems inv updOk rest with
      | (evs, inv') => (.read item.productID false :: evs, inv')
    | some p =>
      if doUpdate updOk item.productID (p.stock + item.quantity) then
        match restockItems (setStockInv inv item.productID (p.stock + item.quantity))
            updOk rest with
        | (evs, inv') =>
            (.read item.productID true ::
              .write item.productID (p.stock + item.quantity) true :: evs, inv')
      else
        match restockItems inv updOk rest with
        | (evs, inv') =>
            (.read item.productID true ::
              .write item.productID (p.stock + item.quantity) false :: evs, inv')

/-- `orderUseCase.UpdateOrderStatus`: id and target-status validation, load
of the current order (`getOrder` = the `GetOrderByID` result), the two
transition guards, the best-effort restock on genuine cancellation, then the
repository status write (`repoOk` = whether it succeeds). -/
def updateOrderStatus (inv : Inv) (updOk : UpdOracle) (repoOk : Bool)
    (getOrder : Option Order) (id : Int) (status : OrderStatus) :
    List Event × Except UpdateErr Order :=
  if id ≤ 0 then ([], .error .invalidOrderID)
  else if !IsValidStatus status then ([], .error .invalidTargetStatus)
  else
    match getOrder with
    | none => ([], .error .orderNotFound)
    | some cur =>
      if cur.status == StatusCompleted && status == StatusCancelled then
        ([], .error .cannotCancelCompleted)
      else if cur.status == StatusCancelled && status != StatusCancelled then
        ([], .error .cannotChangeCancelled)
      else
        if repoOk then
          ((if status == StatusCancelled && cur.status != StatusCancelled then
              (restockItems inv updOk cur.items).1
            else []),
           .ok { cur with status := status })
        else
          ((if status == StatusCancelled && cur.status != StatusCancelled then
              (restockItems inv updOk cur.items).1
            else []),
           .error .updateFailed)

/-- The limit normalisation of `postgresOrderRepository.ListOrdersByUserID`:
a non-positive or over-100 limit falls back to 10. -/
def repoLimit (limit : Int) : Int :=
  if limit ≤ 0 || 100 < limit then 10 else limit

/-- The offset normalisation of `postgresOrderRepository.ListOrdersByUserID`:
a negative offset falls back to 0. -/
def repoOffset (offset : Int) : Int :=
  if offset < 0 then 0 else offset

/-- `postgresOrderRepository.ListOrdersByUserID`: normalises limit/offset,
runs the query (`dbOk` = whether the database query succeeds; `db` is the
orders table in `created_at` descending order) and returns the empty list,
not an error, when nothing matches. -/
def listOrdersByUserID (dbOk : Bool) (db : List Order)
    (userID limit offset : Int) : Except String (List Order) :=
  let l := repoLimit limit
  let off := repoOffset offset
  if dbOk then
    .ok (((db.filter fun o => o.userID == userID).drop off.toNat).take l.toNat)
  else .error "could not retrieve orders"

/-- `orderUseCase.ListOrdersByUserID`: rejects a non-positive user id, else
delegates to the repository. -/
def listOrdersUC (dbOk : Bool) (db : List Order)
    (userID limit offset : Int) : Except String (List Order) :=
  if userID ≤ 0 then .error "invalid user ID"
  else listOrdersByUserID dbOk db userID limit offset

/-- The limit parsing of `OrderHandler.ListOrders`: a missing query
parameter takes the default "10"; an unparseable or negative value falls
back to 10 (`none` models missing-or-unparseable); above 100 is clamped to
100. -/
def handlerLimit (limitQ : Option Int) : Int :=
  let l : Int :=
    match limitQ with
    | none => 10
    | some l => if l < 0 then 10 else l
  if 100 < l then 100 else l

/-- The offset parsing of `OrderHandler.ListOrders`: missing, unparseable or
negative falls back to 0. -/
def handlerOffset (offsetQ : Option Int) : Int :=
  match offsetQ with
  | none => 0
  | some o => if o < 0 then 0 else o

/-- `OrderHandler.ListOrders` composed with the use case and repository. -/
def listOrdersHandler (dbOk : Bool) (db : List Order) (userID : Int)
    (limitQ offsetQ : Option Int) : Except String (List Order) :=
  listOrdersUC dbOk db userID (handlerLimit limitQ) (handlerOffset offsetQ)

/-- The limit actually applied to the query for a given handler input. -/
def effectiveLimit (limitQ : Option Int) : Int :=
  repoLimit (handlerLimit limitQ)

/-- The offset actually applied to the query for a given handler input. -/
def effectiveOffset (offsetQ : Option Int) : Int :=
  repoOffset (handlerOffset offsetQ)

/-! ### Association-list lemmas for the `productsInfo` map -/

theorem entryQty_nil (pid : Int) : entryQty [] pid = 0 := rfl

theorem entryQty_cons (e : CheckEntry) (rest : List CheckEntry) (pid : Int) :
    entryQty (e :: rest) pid =
      if e.pid = pid then e.orderQuantity else entryQty rest pid := by
  by_cases h : e.pid = pid <;> simp [entryQty, lookupEntry, h]

theorem lookupEntry_bump_ne (acc : List CheckEntry) (pid q pid' : Int)
    (h : pid' ≠ pid) :
    lookupEntry (bumpEntry acc pid q) pid' = lookupEntry acc pid' := by
  induction acc with
  | nil => simp [bumpEntry]
  | cons e rest ih =>
    by_cases he : e.pid = pid
    · have hne : ¬ pid = pid' := fun hc => h hc.symm
      simp [bumpEntry, he, lookupEntry, hne]
    · by_cases he' : e.pid = pid'
      · simp [bumpEntry, he, lookupEntry, he', h]
      · simp [bumpEntry, he, lookupEntry, he', ih]

theorem entryQty_bump_ne (acc : List CheckEntry) (pid q pid' : Int)
    (h : pid' ≠ pid) :
    entryQty (bumpEntry acc pid q) pid' = entryQty acc pid' := by
  simp [entryQty, lookupEntry_bump_ne acc pid q pid' h]

theorem entryQty_bump_self (acc : List CheckEntry) (pid q : Int)
    (h : (lookupEntry acc pid).isSome) :
    entryQty (bumpEntry acc pid q) pid = entryQty acc pid + q := by
  induction acc with
  | nil => simp [lookupEntry] at h
  | cons e rest ih =>
    by_cases he : e.pid = pid
    · simp [bumpEntry, he, entryQty, lookupEntry]
    · simp only [lookupEntry, he, if_false] at h
      simp [bumpEntry, he, entryQty_cons, ih h]

theorem entryQty_append_new (acc : List CheckEntry) (pid : Int) (p : Product)
    (q : Int) (h : lookupEntry acc pid = none) :
    entryQty (acc ++ [⟨pid, p, q⟩]) pid = entryQty acc pid + q := by
  induction acc with
  | nil => simp [entryQty, lookupEntry]
  | cons e rest ih =>
    simp only [lookupEntry] at h
    by_cases he : e.pid = pid
    · simp [he] at h
    · simp only [he, if_false] at h
      simp [List.cons_append, entryQty_cons, he, ih h]

theorem entryQty_append_ne (acc : List CheckEntry) (pid : Int) (p : Product)
    (q pid' : Int) (h : pid' ≠ pid) :
    entryQty (acc ++ [⟨pid, p, q⟩]) pid' = entryQty acc pid' := by
  have hne : ¬ pid = pid' := fun hc => h hc.symm
  induction acc with
  | nil => simp [entryQty, lookupEntry, hne]
  | cons e rest ih =>
    by_cases he : e.pid = pid'
    · simp [List.cons_append, entryQty_cons, he, ih]
    · simp [List.cons_append, entryQty_cons, he, ih]

theorem entryQty_stepAcc_self (acc : List CheckEntry) (pid : Int) (p : Product)
    (q : Int) :
    entryQty (stepAcc acc pid p q) pid = entryQty acc pid + q := by
  unfold stepAcc
  cases h : lookupEntry acc pid with
  | none => exact entryQty_append_new acc pid p q h
  | some e => exact entryQty_bump_self acc pid q (by simp [h])

theorem entryQty_stepAcc_ne (acc : List CheckEntry) (pid : Int) (p : Product)
    (q pid' : Int) (h : pid' ≠ pid) :
    entryQty (stepAcc acc pid p q) pid' = entryQty acc pid' := by
  unfold stepAcc
  cases h' : lookupEntry acc pid with
  | none => exact entryQty_append_ne acc pid p q pid' h
  | some e => exact entryQty_bump_ne acc pid q pid' h

theorem bumpEntry_mem {acc : List CheckEntry} {pid q : Int} {x : CheckEntry}
    (h : x ∈ bumpEntry acc pid q) :
    ∃ y ∈ acc, x.pid = y.pid ∧ x.product = y.product := by
  induction acc with
  | nil => simp [bumpEntry] at h
  | cons e rest ih =>
    by_cases he : e.pid = pid
    · simp only [bumpEntry, he, if_true] at h
      rcases List.mem_cons.mp h with h1 | h1
      · exact ⟨e, List.mem_cons_self e rest, by simp [h1, he]⟩
      · exact ⟨x, List.mem_cons_of_mem e h1, rfl, rfl⟩
    · simp only [bumpEntry, he, if_false] at h
      rcases List.mem_cons.mp h with h1 | h1
      · exact ⟨e, List.mem_cons_self e rest, by simp [h1]⟩
      · obtain ⟨y, hy, h2, h3⟩ := ih h1
        exact ⟨y, List.mem_cons_of_mem e hy, h2, h3⟩

theorem stepAcc_mem {acc : List CheckEntry} {pid : Int} {p : Product} {q : Int}
    {x : CheckEntry} (h : x ∈ stepAcc acc pid p q) :
    (∃ y ∈ acc, x.pid = y.pid ∧ x.product = y.product) ∨
      (x.pid = pid ∧ x.product = p) := by
  unfold stepAcc at h
  cases h' : lookupEntry acc pid with
  | some e =>
    rw [h'] at h
    exact Or.inl (bumpEntry_mem h)
  | none =>
    rw [h'] at h
    rcases List.mem_append.mp h with h1 | h1
    · exact Or.inl ⟨x, h1, rfl, rfl⟩
    · simp at h1
      exact Or.inr (by simp [h1])

theorem totalRequested_of_not_mem {items : List OrderItem} {pid : Int}
    (h : pid ∉ items.map (fun it => it.productID)) :
    totalRequested items pid = 0 := by
  induction items with
  | nil => rfl
  | cons it rest ih =>
    simp only [List.map_cons, List.mem_cons] at h
    push_neg at h
    rw [totalRequested, if_neg (fun hc => h.1 hc.symm), ih h.2]
    simp

/-! ### Check-phase lemmas -/

theorem checkPhase_no_write {inv : Inv} :
    ∀ {items : List OrderItem} {acc : List CheckEntry},
    ∀ ev ∈ (checkPhase inv items acc).1, ev.isWrite = false := by
  intro items
  induction items with
  | nil => intro acc ev hev; simp [checkPhase] at hev
  | cons item rest ih =>
    intro acc ev hev
    rw [checkPhase] at hev
    cases hinv : inv item.productID with
    | none =>
      rw [hinv] at hev
      simp at hev
      simp [hev, Event.isWrite]
    | some p =>
      rw [hinv] at hev
      simp only [] at hev
      by_cases hst : p.stock < item.quantity + entryQty acc item.productID
      · rw [if_pos hst] at hev
        simp at hev
        simp [hev, Event.isWrite]
      · rw [if_neg hst] at hev
        cases hrec : checkPhase inv rest (stepAcc acc item.productID p item.quantity) with
        | mk evs0 res0 =>
          rw [hrec] at hev
          cases res0 with
          | error e =>
            simp at hev
            rcases hev with h1 | h1
            · simp [h1, Event.isWrite]
            · have := @ih (stepAcc acc item.productID p item.quantity) ev
              rw [hrec] at this
              exact this h1
          | ok pr =>
            obtain ⟨its0, accF0⟩ := pr
            simp at hev
            rcases hev with h1 | h1
            · simp [h1, Event.isWrite]
            · have := @ih (stepAcc acc item.productID p item.quantity) ev
              rw [hrec] at this
              exact this h1

theorem checkPhase_error_insufficient {inv : Inv} :
    ∀ {items : List OrderItem} {acc : List CheckEntry} {evs : List Event}
      {e : CreateErr},
    (∀ it ∈ items, (inv it.productID).isSome) →
    checkPhase inv items acc = (evs, .error e) →
    ∃ pid, e = .insufficientStock pid := by
  intro items
  induction items with
  | nil =>
    intro acc evs e _ h
    simp [checkPhase] at h
  | cons item rest ih =>
    intro acc evs e hread h
    rw [checkPhase] at h
    cases hinv : inv item.productID with
    | none =>
      have := hread item (List.mem_cons_self item rest)
      rw [hinv] at this
      simp at this
    | some p =>
      rw [hinv] at h
      simp only [] at h
      by_cases hst : p.stock < item.quantity + entryQty acc item.productID
      · rw [if_pos hst] at h
        simp at h
        exact ⟨item.productID, h.2.symm⟩
      · rw [if_neg hst] at h
        cases hrec : checkPhase inv rest (stepAcc acc item.productID p item.quantity) with
        | mk evs0 res0 =>
          rw [hrec] at h
          cases res0 with
          | error e0 =>
            simp at h
            obtain ⟨-, rfl⟩ := h
            exact ih (fun it hit => hread it (List.mem_cons_of_mem item hit)) hrec
          | ok pr =>
            obtain ⟨its0, accF0⟩ := pr
            simp at h

theorem checkPhase_ok_qty {inv : Inv} :
    ∀ {items : List OrderItem} {acc : List CheckEntry} {evs : List Event}
      {its : List OrderItem} {accF : List CheckEntry},
    checkPhase inv items acc = (evs, .ok (its, accF)) →
    ∀ pid, entryQty accF pid = entryQty acc pid + totalRequested items pid := by
  intro items
  induction items with
  | nil =>
    intro acc evs its accF h pid
    simp [checkPhase] at h
    obtain ⟨-, -, rfl⟩ := h
    simp [totalRequested]
  | cons item rest ih =>
    intro acc evs its accF h pid
    rw [checkPhase] at h
    cases hinv : inv item.productID with
    | none => rw [hinv] at h; simp at h
    | some p =>
      rw [hinv] at h
      simp only [] at h
      by_cases hst : p.stock < item.quantity + entryQty acc item.productID
      · rw [if_pos hst] at h; simp at h
      · rw [if_neg hst] at h
        cases hrec : checkPhase inv rest (stepAcc acc item.productID p item.quantity) with
        | mk evs0 res0 =>
          rw [hrec] at h
          cases res0 with
          | error e0 => simp at h
          | ok pr =>
            obtain ⟨its0, accF0⟩ := pr
            simp at h
            obtain ⟨-, -, rfl⟩ := h
            have hq := ih hrec pid
            rw [totalRequested]
            by_cases hpid : item.productID = pid
            · subst hpid
              rw [hq, entryQty_stepAcc_self, if_pos rfl]
              ring
            · rw [hq, entryQty_stepAcc_ne acc item.productID p item.quantity pid
                (fun hc => hpid hc.symm), if_neg hpid]
              ring

theorem checkPhase_ok_stock {inv : Inv} :
    ∀ {items : List OrderItem} {acc : List CheckEntry} {evs : List Event}
      {its : List OrderItem} {accF : List CheckEntry} {pid : Int} {p : Product},
    checkPhase inv items acc = (evs, .ok (its, accF)) →
    pid ∈ items.map (fun it => it.productID) →
    inv pid = some p →
    entryQty accF pid ≤ p.stock := by
  intro items
  induction items with
  | nil => intro acc evs its accF pid p _ hmem; simp at hmem
  | cons item rest ih =>
    intro acc evs its accF pid p h hmem hp
    rw [checkPhase] at h
    cases hinv : inv item.productID with
    | none => rw [hinv] at h; simp at h
    | some p0 =>
      rw [hinv] at h
      simp only [] at h
      by_cases hst : p0.stock < item.quantity + entryQty acc item.productID
      · rw [if_pos hst] at h; simp at h
      · rw [if_neg hst] at h
        cases hrec : checkPhase inv rest (stepAcc acc item.productID p0 item.quantity) with
        | mk evs0 res0 =>
          rw [hrec] at h
          cases res0 with
          | error e0 => simp at h
          | ok pr =>
            obtain ⟨its0, accF0⟩ := pr
            simp at h
            obtain ⟨-, -, rfl⟩ := h
            by_cases hmem' : pid ∈ rest.map (fun it => it.productID)
            · exact ih hrec hmem' hp
            · have hpid : item.productID = pid := by
                simp only [List.map_cons, List.mem_cons] at hmem
                rcases hmem with h1 | h1
                · exact h1.symm
                · exact absurd h1 hmem'
              subst hpid
              have hpp : p0 = p := by
                have h2 := hinv.symm.trans hp
                injection h2
              subst hpp
              have hq := checkPhase_ok_qty hrec item.productID
              rw [totalRequested_of_not_mem hmem'] at hq
              rw [hq, entryQty_stepAcc_self]
              omega

theorem checkPhase_acc_inv {inv : Inv} :
    ∀ {items : List OrderItem} {acc : List CheckEntry} {evs : List Event}
      {its : List OrderItem} {accF : List CheckEntry},
    (∀ x ∈ acc, inv x.pid = some x.product) →
    checkPhase inv items acc = (evs, .ok (its, accF)) →
    ∀ x ∈ accF, inv x.pid = some x.product := by
  intro items
  induction items with
  | nil =>
    intro acc evs its accF hacc h
    simp [checkPhase] at h
    obtain ⟨-, -, rfl⟩ := h
    exact hacc
  | cons item rest ih =>
    intro acc evs its accF hacc h
    rw [checkPhase] at h
    cases hinv : inv item.productID with
    | none => rw [hinv] at h; simp at h
    | some p =>
      rw [hinv] at h
      simp only [] at h
      by_cases hst : p.stock < item.quantity + entryQty acc item.productID
      · rw [if_pos hst] at h; simp at h
      · rw [if_neg hst] at h
        cases hrec : checkPhase inv rest (stepAcc acc item.productID p item.quantity) with
        | mk evs0 res0 =>
          rw [hrec] at h
          cases res0 with
          | error e0 => simp at h
          | ok pr =>
            obtain ⟨its0, accF0⟩ := pr
            simp at h
            obtain ⟨-, -, rfl⟩ := h
            refine ih ?_ hrec
            intro x hx
            rcases stepAcc_mem hx with ⟨y, hy, h1, h2⟩ | ⟨h1, h2⟩
            · rw [h1, h2]; exact hacc y hy
            · rw [h1, h2]; exact hinv

theorem checkPhase_ok_prices {inv : Inv} :
    ∀ {items : List OrderItem} {acc : List CheckEntry} {evs : List Event}
      {its : List OrderItem} {accF : List CheckEntry},
    checkPhase inv items acc = (evs, .ok (its, accF)) →
    ∀ it ∈ its, ∃ p, inv it.productID = some p ∧ it.price = p.price := by
  intro items
  induction items with
  | nil =>
    intro acc evs its accF h
    simp [checkPhase] at h
    obtain ⟨-, rfl, -⟩ := h
    simp
  | cons item rest ih =>
    intro acc evs its accF h
    rw [checkPhase] at h
    cases hinv : inv item.productID with
    | none => rw [hinv] at h; simp at h
    | some p =>
      rw [hinv] at h
      simp only [] at h
      by_cases hst : p.stock < item.quantity + entryQty acc item.productID
      · rw [if_pos hst] at h; simp at h
      · rw [if_neg hst] at h
        cases hrec : checkPhase inv rest (stepAcc acc item.productID p item.quantity) with
        | mk evs0 res0 =>
          rw [hrec] at h
          cases res0 with
          | error e0 => simp at h
          | ok pr =>
            obtain ⟨its0, accF0⟩ := pr
            simp at h
            obtain ⟨-, rfl, -⟩ := h
            intro it hit
            rcases List.mem_cons.mp hit with h1 | h1
            · exact ⟨p, by rw [h1]; exact hinv, by rw [h1]⟩
            · exact ih hrec it h1

theorem checkPhase_ok_shape {inv : Inv} :
    ∀ {items : List OrderItem} {acc : List CheckEntry} {evs : List Event}
      {its : List OrderItem} {accF : List CheckEntry},
    checkPhase inv items acc = (evs, .ok (its, accF)) →
    its.map (fun it => (it.productID, it.quantity)) =
      items.map (fun it => (it.productID, it.quantity)) := by
  intro items
  induction items with
  | nil =>
    intro acc evs its accF h
    simp [checkPhase] at h
    obtain ⟨-, rfl, -⟩ := h
    simp
  | cons item rest ih =>
    intro acc evs its accF h
    rw [checkPhase] at h
    cases hinv : inv item.productID with
    | none => rw [hinv] at h; simp at h
    | some p =>
      rw [hinv] at h
      simp only [] at h
      by_cases hst : p.stock < item.quantity + entryQty acc item.productID
      · rw [if_pos hst] at h; simp at h
      · rw [if_neg hst] at h
        cases hrec : checkPhase inv rest (stepAcc acc item.productID p item.quantity) with
        | mk evs0 res0 =>
          rw [hrec] at h
          cases res0 with
          | error e0 => simp at h
          | ok pr =>
            obtain ⟨its0, accF0⟩ := pr
            simp at h
            obtain ⟨-, rfl, -⟩ := h
            simp [ih hrec]

theorem applyEvents_no_write {inv : Inv} :
    ∀ {evs : List Event}, (∀ ev ∈ evs, ev.isWrite = false) →
    applyEvents inv evs = inv := by
  intro evs
  induction evs generalizing inv with
  | nil => intro _; rfl
  | cons ev rest ih =>
    intro h
    cases ev with
    | read pid ok =>
      rw [applyEvents, List.foldl_cons]
      exact ih fun e he => h e (List.mem_cons_of_mem _ he)
    | write pid v ok =>
      have := h _ (List.mem_cons_self _ _)
      simp [Event.isWrite] at this

/-! ### Reservation-phase lemmas -/

theorem reservePhase_ok {updOk : UpdOracle} :
    ∀ {entries done d : List CheckEntry} {evs : List Event},
    reservePhase updOk entries done = (evs, .ok d) →
    d = done ++ entries ∧
      (∀ x ∈ entries, doUpdate updOk x.pid (x.product.stock - x.orderQuantity) = true) ∧
      evs = entries.map
        (fun x => .write x.pid (x.product.stock - x.orderQuantity) true) := by
  intro entries
  induction entries with
  | nil =>
    intro done d evs h
    simp [reservePhase] at h
    obtain ⟨rfl, rfl⟩ := h
    simp
  | cons e rest ih =>
    intro done d evs h
    rw [reservePhase] at h
    by_cases hd : doUpdate updOk e.pid (e.product.stock - e.orderQuantity) = true
    · rw [if_pos hd] at h
      cases hrec : reservePhase updOk rest (done ++ [e]) with
      | mk evs0 res0 =>
        rw [hrec] at h
        cases res0 with
        | error pid0 => simp at h
        | ok d0 =>
          simp at h
          obtain ⟨rfl, rfl⟩ := h
          obtain ⟨h1, h2, h3⟩ := ih hrec
          refine ⟨by simp [h1], ?_, by simp [h3]⟩
          intro x hx
          rcases List.mem_cons.mp hx with h4 | h4
          · rw [h4]; exact hd
          · exact h2 x h4
    · rw [if_neg hd] at h
      simp at h

theorem reservePhase_error {updOk : UpdOracle} :
    ∀ {entries done : List CheckEntry} {evs : List Event} {pid : Int},
    reservePhase updOk entries done = (evs, .error pid) →
    ∃ pre fail post,
      entries = pre ++ fail :: post ∧
      fail.pid = pid ∧
      doUpdate updOk fail.pid (fail.product.stock - fail.orderQuantity) = false ∧
      (∀ x ∈ pre, doUpdate updOk x.pid (x.product.stock - x.orderQuantity) = true) ∧
      evs = pre.map (fun x => .write x.pid (x.product.stock - x.orderQuantity) true) ++
        .write fail.pid (fail.product.stock - fail.orderQuantity) false ::
          compensate updOk (done ++ pre) := by
  intro entries
  induction entries with
  | nil =>
    intro done evs pid h
    simp [reservePhase] at h
  | cons e rest ih =>
    intro done evs pid h
    rw [reservePhase] at h
    by_cases hd : doUpdate updOk e.pid (e.product.stock - e.orderQuantity) = true
    · rw [if_pos hd] at h
      cases hrec : reservePhase updOk rest (done ++ [e]) with
      | mk evs0 res0 =>
        rw [hrec] at h
        cases res0 with
        | ok d0 => simp at h
        | error pid0 =>
          simp at h
          obtain ⟨rfl, rfl⟩ := h
          obtain ⟨pre0, fail, post, h1, h2, h3, h4, h5⟩ := ih hrec
          refine ⟨e :: pre0, fail, post, by simp [h1], h2, h3, ?_, ?_⟩
          · intro x hx
            rcases List.mem_cons.mp hx with h6 | h6
            · rw [h6]; exact hd
            · exact h4 x h6
          · rw [h5]
            simp [List.append_assoc]
    · rw [if_neg hd] at h
      simp at h
      obtain ⟨rfl, rfl⟩ := h
      refine ⟨[], e, rest, by simp, rfl, by simpa using hd, by simp, by simp⟩

theorem mem_compensate {updOk : UpdOracle} {entries : List CheckEntry}
    {x : CheckEntry} (h : x ∈ entries) :
    Event.write x.pid x.product.stock (doUpdate updOk x.pid x.product.stock) ∈
      compensate updOk entries :=
  List.mem_map_of_mem _ h

/-! ### Dissection of `createOrder` by phase outcome -/

theorem createOrder_validation {inv : Inv} {updOk : UpdOracle} {storeOk : Bool}
    {order : Order} {e : CreateErr} (h : validateOrder order = some e) :
    createOrder inv updOk storeOk order = ([], .error e) := by
  unfold createOrder
  rw [h]

theorem createOrder_checkErr {inv : Inv} {updOk : UpdOracle} {storeOk : Bool}
    {order : Order} {evs1 : List Event} {e : CreateErr}
    (hval : validateOrder order = none)
    (hchk : checkPhase inv order.items [] = (evs1, .error e)) :
    createOrder inv updOk storeOk order = (evs1, .error e) := by
  unfold createOrder
  rw [hval]
  simp only []
  rw [hchk]

theorem createOrder_reserveErr {inv : Inv} {updOk : UpdOracle} {storeOk : Bool}
    {order : Order} {evs1 evs2 : List Event} {its : List OrderItem}
    {acc : List CheckEntry} {pid : Int}
    (hval : validateOrder order = none)
    (hchk : checkPhase inv order.items [] = (evs1, .ok (its, acc)))
    (hres : reservePhase updOk acc [] = (evs2, .error pid)) :
    createOrder inv updOk storeOk order =
      (evs1 ++ evs2, .error (.reservationFailed pid)) := by
  unfold createOrder
  rw [hval]
  simp only []
  rw [hchk]
  simp only []
  rw [hres]

theorem createOrder_storeFail {inv : Inv} {updOk : UpdOracle}
    {order : Order} {evs1 evs2 : List Event} {its : List OrderItem}
    {acc d : List CheckEntry}
    (hval : validateOrder order = none)
    (hchk : checkPhase inv order.items [] = (evs1, .ok (its, acc)))
    (hres : reservePhase updOk acc [] = (evs2, .ok d)) :
    createOrder inv updOk false order =
      (evs1 ++ evs2 ++ compensate updOk d, .error .persistenceFailed) := by
  unfold createOrder
  rw [hval]
  simp only []
  rw [hchk]
  simp only []
  rw [hres]
  simp

theorem createOrder_success {inv : Inv} {updOk : UpdOracle}
    {order : Order} {evs1 evs2 : List Event} {its : List OrderItem}
    {acc d : List CheckEntry}
    (hval : validateOrder order = none)
    (hchk : checkPhase inv order.items [] = (evs1, .ok (its, acc)))
    (hres : reservePhase updOk acc [] = (evs2, .ok d)) :
    createOrder inv updOk true order =
      (evs1 ++ evs2, .ok { order with items := its, status := StatusPending }) := by
  unfold createOrder
  rw [hval]
  simp only []
  rw [hchk]
  simp only []
  rw [hres]
  simp

/-! ### Validation lemmas -/

theorem validateItems_isValidation :
    ∀ {i : Nat} {items : List OrderItem} {e : CreateErr},
    validateItems i items = some e → e.isValidationErr = true := by
  intro i items
  induction items generalizing i with
  | nil => intro e h; simp [validateItems] at h
  | cons item rest ih =>
    intro e h
    rw [validateItems] at h
    by_cases h1 : item.productID ≤ 0
    · rw [if_pos h1] at h; simp at h; subst h; rfl
    · rw [if_neg h1] at h
      by_cases h2 : item.quantity ≤ 0
      · rw [if_pos h2] at h; simp at h; subst h; rfl
      · rw [if_neg h2] at h
        by_cases h3 : item.price < 0
        · rw [if_pos h3] at h; simp at h; subst h; rfl
        · rw [if_neg h3] at h; exact ih h

theorem validateOrder_isValidation {o : Order} {e : CreateErr}
    (h : validateOrder o = some e) : e.isValidationErr = true := by
  unfold validateOrder at h
  by_cases h1 : o.userID ≤ 0
  · rw [if_pos h1] at h; simp at h; subst h; rfl
  · rw [if_neg h1] at h
    by_cases h2 : o.items.isEmpty
    · rw [if_pos h2] at h; simp at h; subst h; rfl
    · rw [if_neg h2] at h
      cases hv : validateItems 0 o.items with
      | some e0 =>
        rw [hv] at h; simp at h; subst h
        exact validateItems_isValidation hv
      | none =>
        rw [hv] at h
        simp only [] at h
        by_cases h3 : (o.status == "" || o.status == StatusPending) = true
        · rw [if_pos h3] at h; simp at h
        · rw [if_neg h3] at h; simp at h; subst h; rfl

theorem validateItems_some_of_bad :
    ∀ {i : Nat} {items : List OrderItem},
    (∃ it ∈ items, it.productID ≤ 0 ∨ it.quantity ≤ 0) →
    ∃ e, validateItems i items = some e := by
  intro i items
  induction items generalizing i with
  | nil => intro h; simp at h
  | cons item rest ih =>
    intro h
    by_cases h1 : item.productID ≤ 0
    · exact ⟨.invalidProductID i, by rw [validateItems, if_pos h1]⟩
    · by_cases h2 : item.quantity ≤ 0
      · exact ⟨.invalidQuantity i, by rw [validateItems, if_neg h1, if_pos h2]⟩
      · by_cases h3 : item.price < 0
        · exact ⟨.negativePrice i, by rw [validateItems, if_neg h1, if_neg h2, if_pos h3]⟩
        · have hrest : ∃ it ∈ rest, it.productID ≤ 0 ∨ it.quantity ≤ 0 := by
            obtain ⟨it, hit, hbad⟩ := h
            rcases List.mem_cons.mp hit with rfl | hit'
            · rcases hbad with hb | hb
              · exact absurd hb h1
              · exact absurd hb h2
            · exact ⟨it, hit', hbad⟩
          obtain ⟨e, he⟩ := ih hrest
          exact ⟨e, by rw [validateItems, if_neg h1, if_neg h2, if_neg h3]; exact he⟩

/-! ### Claim theorems on `createOrder` -/

/-- Claim C9: a CreateOrder call with a non-positive user id, an empty item
list, or an item with non-positive product id or quantity fails with a
validation-class error and performs no remote inventory call and no store
write (the interaction trace is empty). -/
theorem createOrder_validation_rejects
    (inv : Inv) (updOk : UpdOracle) (storeOk : Bool) (order : Order)
    (hbad : order.userID ≤ 0 ∨ order.items = [] ∨
      ∃ it ∈ order.items, it.productID ≤ 0 ∨ it.quantity ≤ 0) :
    ∃ e, createOrder inv updOk storeOk order = ([], .error e) ∧
      e.isValidationErr = true := by
  have hsome : ∃ e, validateOrder order = some e := by
    by_cases h1 : order.userID ≤ 0
    · exact ⟨.invalidUserID, by rw [validateOrder, if_pos h1]⟩
    · rcases hbad with hb | hb | hb
      · exact absurd hb h1
      · have h2 : order.items.isEmpty = true := by simp [hb]
        exact ⟨.emptyItems, by rw [validateOrder, if_neg h1, if_pos h2]⟩
      · by_cases h2 : order.items.isEmpty = true
        · exact ⟨.emptyItems, by rw [validateOrder, if_neg h1, if_pos h2]⟩
        · obtain ⟨e0, he0⟩ := validateItems_some_of_bad hb
          refine ⟨e0, ?_⟩
          rw [validateOrder, if_neg h1, if_neg h2, he0]
  obtain ⟨e, he⟩ := hsome
  exact ⟨e, createOrder_validation he, validateOrder_isValidation he⟩

/-- Claim C1: when validation passes, every referenced product is readable,
and some product's aggregate requested quantity across all line items
exceeds the stock observed for it, CreateOrder fails with an
insufficient-stock error, issues no stock write, and leaves the inventory
unchanged. -/
theorem createOrder_insufficient_aggregate
    (inv : Inv) (updOk : UpdOracle) (storeOk : Bool) (order : Order)
    (pid : Int) (p : Product)
    (hval : validateOrder order = none)
    (hread : ∀ it ∈ order.items, (inv it.productID).isSome = true)
    (hmem : pid ∈ order.items.map (fun it => it.productID))
    (hp : inv pid = some p)
    (hlt : p.stock < totalRequested order.items pid) :
    (∃ pid', (createOrder inv updOk storeOk order).2 =
        .error (.insufficientStock pid')) ∧
    (∀ ev ∈ (createOrder inv updOk storeOk order).1, ev.isWrite = false) ∧
    applyEvents inv (createOrder inv updOk storeOk order).1 = inv := by
  cases hchk : checkPhase inv order.items [] with
  | mk evs1 res1 =>
    cases res1 with
    | ok pr =>
      obtain ⟨its, accF⟩ := pr
      exfalso
      have hq := checkPhase_ok_qty hchk pid
      have hs := checkPhase_ok_stock hchk hmem hp
      rw [hq, entryQty_nil] at hs
      omega
    | error e =>
      obtain ⟨pid', rfl⟩ := checkPhase_error_insufficient hread hchk
      have hco := @createOrder_checkErr inv updOk storeOk order evs1
        (CreateErr.insufficientStock pid') hval hchk
      rw [hco]
      have hnw : ∀ ev ∈ evs1, ev.isWrite = false := by
        intro ev hev
        have hx := @checkPhase_no_write inv order.items [] ev
        rw [hchk] at hx
        exact hx hev
      exact ⟨⟨pid', rfl⟩, hnw, applyEvents_no_write hnw⟩

/-- Claim C2: when a stock update fails during the reservation pass, every
product whose update already succeeded earlier in that pass receives a
compensating write carrying the pre-reservation stock value read in the
check phase, and the error surfaced to the caller is the triggering
reservation error (for all compensation outcomes). -/
theorem createOrder_reservation_compensates
    (inv : Inv) (updOk : UpdOracle) (storeOk : Bool) (order : Order)
    (evs1 evs2 : List Event) (its : List OrderItem) (acc : List CheckEntry)
    (pid : Int)
    (hval : validateOrder order = none)
    (hchk : checkPhase inv order.items [] = (evs1, .ok (its, acc)))
    (hres : reservePhase updOk acc [] = (evs2, .error pid)) :
    createOrder inv updOk storeOk order =
      (evs1 ++ evs2, .error (.reservationFailed pid)) ∧
    ∃ pre fail post,
      acc = pre ++ fail :: post ∧
      fail.pid = pid ∧
      doUpdate updOk fail.pid (fail.product.stock - fail.orderQuantity) = false ∧
      ∀ x ∈ pre,
        doUpdate updOk x.pid (x.product.stock - x.orderQuantity) = true ∧
        inv x.pid = some x.product ∧
        Event.write x.pid x.product.stock
          (doUpdate updOk x.pid x.product.stock) ∈ evs2 := by
  refine ⟨createOrder_reserveErr hval hchk hres, ?_⟩
  obtain ⟨pre, fail, post, h1, h2, h3, h4, h5⟩ := reservePhase_error hres
  have hinv := checkPhase_acc_inv (by simp) hchk
  refine ⟨pre, fail, post, h1, h2, h3, ?_⟩
  intro x hx
  refine ⟨h4 x hx, hinv x (by rw [h1]; exact List.mem_append_left _ hx), ?_⟩
  rw [h5]
  have hc : Event.write x.pid x.product.stock
      (doUpdate updOk x.pid x.product.stock) ∈ compensate updOk ([] ++ pre) := by
    simpa using @mem_compensate updOk pre x hx
  exact List.mem_append_right _ (List.mem_cons_of_mem _ hc)

/-- Claim C3: when all reservations succeed but the order-store write fails,
every product reserved in the saga run receives a compensating write
restoring its pre-reservation stock value, and the call returns the
persistence error (for all compensation outcomes). -/
theorem createOrder_persistFail_compensatesAll
    (inv : Inv) (updOk : UpdOracle) (order : Order)
    (evs1 evs2 : List Event) (its : List OrderItem) (acc d : List CheckEntry)
    (hval : validateOrder order = none)
    (hchk : checkPhase inv order.items [] = (evs1, .ok (its, acc)))
    (hres : reservePhase updOk acc [] = (evs2, .ok d)) :
    createOrder inv updOk false order =
      (evs1 ++ evs2 ++ compensate updOk acc, .error .persistenceFailed) ∧
    d = acc ∧
    ∀ x ∈ acc,
      inv x.pid = some x.product ∧
      Event.write x.pid x.product.stock (doUpdate updOk x.pid x.product.stock) ∈
        (createOrder inv updOk false order).1 := by
  obtain ⟨hd, hsucc, hevs⟩ := reservePhase_ok hres
  have hdacc : d = acc := by simpa using hd
  subst hdacc
  refine ⟨createOrder_storeFail hval hchk hres, rfl, ?_⟩
  intro x hx
  have hinv := checkPhase_acc_inv (by simp) hchk
  refine ⟨hinv x hx, ?_⟩
  rw [createOrder_storeFail hval hchk hres]
  exact List.mem_append_right _ (mem_compensate hx)

/-- Claim C8: every line item of a successfully created order carries the
price returned by the inventory read for its product in the same saga run,
whatever price the caller supplied, and the items' product ids and
quantities are exactly those of the request. -/
theorem createOrder_price_snapshot
    (inv : Inv) (updOk : UpdOracle) (storeOk : Bool) (order o' : Order)
    (evs : List Event)
    (h : createOrder inv updOk storeOk order = (evs, .ok o')) :
    (∀ it ∈ o'.items, ∃ p, inv it.productID = some p ∧ it.price = p.price) ∧
    o'.items.map (fun it => (it.productID, it.quantity)) =
      order.items.map (fun it => (it.productID, it.quantity)) := by
  unfold createOrder at h
  cases hval : validateOrder order with
  | some e => rw [hval] at h; simp at h
  | none =>
    rw [hval] at h
    simp only [] at h
    cases hchk : checkPhase inv order.items [] with
    | mk evs1 res1 =>
      rw [hchk] at h
      cases res1 with
      | error e => simp at h
      | ok pr =>
        obtain ⟨its, acc⟩ := pr
        simp only [] at h
        cases hres : reservePhase updOk acc [] with
        | mk evs2 res2 =>
          rw [hres] at h
          cases res2 with
          | error pid => simp at h
          | ok d =>
            simp only [] at h
            cases storeOk with
            | false => simp at h
            | true =>
              simp at h
              obtain ⟨-, rfl⟩ := h
              constructor
              · intro it hit
                exact checkPhase_ok_prices hchk it (by simpa using hit)
              · simpa using checkPhase_ok_shape hchk

/-! ### Status-update lemmas -/

theorem updateOrderStatus_eq_cancelCompleted
    {inv : Inv} {updOk : UpdOracle} {repoOk : Bool} {cur : Order} {id : Int}
    {tgt : OrderStatus}
    (hid : ¬ id ≤ 0) (hv : IsValidStatus tgt = true)
    (hg1 : (cur.status == StatusCompleted && tgt == StatusCancelled) = true) :
    updateOrderStatus inv updOk repoOk (some cur) id tgt =
      ([], .error .cannotCancelCompleted) := by
  unfold updateOrderStatus
  rw [if_neg hid, if_neg (by simp [hv])]
  simp only []
  rw [if_pos hg1]

theorem updateOrderStatus_eq_changeCancelled
    {inv : Inv} {updOk : UpdOracle} {repoOk : Bool} {cur : Order} {id : Int}
    {tgt : OrderStatus}
    (hid : ¬ id ≤ 0) (hv : IsValidStatus tgt = true)
    (hg1 : (cur.status == StatusCompleted && tgt == StatusCancelled) = false)
    (hg2 : (cur.status == StatusCancelled && tgt != StatusCancelled) = true) :
    updateOrderStatus inv updOk repoOk (some cur) id tgt =
      ([], .error .cannotChangeCancelled) := by
  unfold updateOrderStatus
  rw [if_neg hid, if_neg (by simp [hv])]
  simp only []
  rw [if_neg (by simp [hg1]), if_pos hg2]

theorem updateOrderStatus_eq_ok
    {inv : Inv} {updOk : UpdOracle} {cur : Order} {id : Int}
    {tgt : OrderStatus}
    (hid : ¬ id ≤ 0) (hv : IsValidStatus tgt = true)
    (hg1 : (cur.status == StatusCompleted && tgt == StatusCancelled) = false)
    (hg2 : (cur.status == StatusCancelled && tgt != StatusCancelled) = false) :
    updateOrderStatus inv updOk true (some cur) id tgt =
      ((if (tgt == StatusCancelled && cur.status != StatusCancelled) = true
          then (restockItems inv updOk cur.items).1 else []),
       .ok { cur with status := tgt }) := by
  unfold updateOrderStatus
  rw [if_neg hid, if_neg (by simp [hv])]
  simp only []
  rw [if_neg (by simp [hg1]), if_neg (by simp [hg2])]
  rw [if_pos trivial]

theorem isValidStatus_cases {s : OrderStatus} (h : IsValidStatus s = true) :
    s = StatusPending ∨ s = StatusCompleted ∨ s = StatusCancelled := by
  unfold IsValidStatus at h
  simp only [Bool.or_eq_true, beq_iff_eq] at h
  tauto

/-! ### Claim theorems on `updateOrderStatus` -/

/-- Claim C6: cancelling an order whose current status is completed fails
with the invalid-transition error, issues no inventory interaction, and
leaves every product's stock unchanged. -/
theorem updateOrderStatus_cancel_completed
    (inv : Inv) (updOk : UpdOracle) (repoOk : Bool) (cur : Order) (id : Int)
    (hid : 0 < id) (hst : cur.status = StatusCompleted) :
    updateOrderStatus inv updOk repoOk (some cur) id StatusCancelled =
      ([], .error .cannotCancelCompleted) ∧
    applyEvents inv
      (updateOrderStatus inv updOk repoOk (some cur) id StatusCancelled).1 = inv := by
  have he := @updateOrderStatus_eq_cancelCompleted inv updOk repoOk cur id
    StatusCancelled (by omega) (by decide) (by rw [hst]; decide)
  exact ⟨he, by rw [he]; rfl⟩

/-- Claim C10: cancelling an already-cancelled order is accepted as an
idempotent no-op: no inventory interaction occurs, no stock changes, and the
order comes back with status still cancelled. -/
theorem updateOrderStatus_recancel_noop
    (inv : Inv) (updOk : UpdOracle) (cur : Order) (id : Int)
    (hid : 0 < id) (hst : cur.status = StatusCancelled) :
    updateOrderStatus inv updOk true (some cur) id StatusCancelled =
      ([], .ok cur) ∧
    applyEvents inv
      (updateOrderStatus inv updOk true (some cur) id StatusCancelled).1 = inv := by
  have he := @updateOrderStatus_eq_ok inv updOk cur id
    StatusCancelled (by omega) (by decide)
    (by rw [hst]; decide) (by rw [hst]; decide)
  rw [if_neg (by rw [hst]; decide)] at he
  have hcur : { cur with status := StatusCancelled } = cur := by
    rw [← hst]
  rw [hcur] at he
  exact ⟨he, by rw [he]; rfl⟩

/-- Claim C4 counterexample: the transition completed → pending, which the
claim says must be rejected as an invalid transition, is accepted by the
code: the status write goes through and the order comes back with status
pending. -/
theorem updateOrderStatus_completed_to_pending_accepted :
    updateOrderStatus (fun _ => none) (fun _ _ => false) true
      (some ⟨1, 1, [], StatusCompleted⟩) 1 StatusPending =
      ([], .ok ⟨1, 1, [], StatusPending⟩) := by
  rfl

/-- Claim C4 (amended): with a valid current and target status, the status
update is accepted exactly when the transition is not completed → cancelled
and not cancelled → non-cancelled; in particular completed → pending is
accepted, and the two guarded transitions are the only rejected ones. -/
theorem updateOrderStatus_transition_table
    (inv : Inv) (updOk : UpdOracle) (cur : Order) (id : Int) (tgt : OrderStatus)
    (hid : 0 < id)
    (_hcur : IsValidStatus cur.status = true) (htgt : IsValidStatus tgt = true) :
    (∃ o', (updateOrderStatus inv updOk true (some cur) id tgt).2 = .ok o') ↔
      ¬ ((cur.status = StatusCompleted ∧ tgt = StatusCancelled) ∨
         (cur.status = StatusCancelled ∧ tgt ≠ StatusCancelled)) := by
  have hid' : ¬ id ≤ 0 := by omega
  by_cases hg1 : (cur.status == StatusCompleted && tgt == StatusCancelled) = true
  · rw [updateOrderStatus_eq_cancelCompleted hid' htgt hg1]
    simp only [Bool.and_eq_true, beq_iff_eq] at hg1
    constructor
    · rintro ⟨o', ho⟩; simp at ho
    · intro hr; exact absurd (Or.inl hg1) hr
  · have hg1' : (cur.status == StatusCompleted && tgt == StatusCancelled) = false :=
      by simpa using hg1
    by_cases hg2 : (cur.status == StatusCancelled && tgt != StatusCancelled) = true
    · rw [updateOrderStatus_eq_changeCancelled hid' htgt hg1' hg2]
      simp only [Bool.and_eq_true, beq_iff_eq, bne_iff_ne] at hg2
      constructor
      · rintro ⟨o', ho⟩; simp at ho
      · intro hr; exact absurd (Or.inr hg2) hr
    · have hg2' : (cur.status == StatusCancelled && tgt != StatusCancelled) = false :=
        by simpa using hg2
      rw [updateOrderStatus_eq_ok hid' htgt hg1' hg2']
      simp only [Bool.and_eq_true, beq_iff_eq, bne_iff_ne, not_and] at hg1 hg2
      constructor
      · intro _
        rintro (⟨h1, h2⟩ | ⟨h1, h2⟩)
        · exact hg1 h1 h2
        · exact hg2 h1 h2
      · intro _; exact ⟨_, rfl⟩

/-- Modelled for comparison with the source restock loop, following the
spec's words (genuine cancellation, §4.2 step 3): every item gets a fresh
read of the current inventory state; a failed read skips the item and
processing continues with the rest; a successful read of product `p` is
immediately followed by a stock write of `p.stock + quantity`; the
inventory state advances only on a successful write. -/
inductive RestockTraceSpec (updOk : UpdOracle) :
    Inv → List OrderItem → List Event → Prop where
  | nil (inv : Inv) : RestockTraceSpec updOk inv [] []
  | readFail (inv : Inv) (item : OrderItem) (rest : List OrderItem)
      (evs : List Event) :
      inv item.productID = none →
      RestockTraceSpec updOk inv rest evs →
      RestockTraceSpec updOk inv (item :: rest) (.read item.productID false :: evs)
  | writeOk (inv : Inv) (item : OrderItem) (rest : List OrderItem) (p : Product)
      (evs : List Event) :
      inv item.productID = some p →
      doUpdate updOk item.productID (p.stock + item.quantity) = true →
      RestockTraceSpec updOk
        (setStockInv inv item.productID (p.stock + item.quantity)) rest evs →
      RestockTraceSpec updOk inv (item :: rest)
        (.read item.productID true ::
          .write item.productID (p.stock + item.quantity) true :: evs)
  | writeFail (inv : Inv) (item : OrderItem) (rest : List OrderItem) (p : Product)
      (evs : List Event) :
      inv item.productID = some p →
      doUpdate updOk item.productID (p.stock + item.quantity) = false →
      RestockTraceSpec updOk inv rest evs →
      RestockTraceSpec updOk inv (item :: rest)
        (.read item.productID true ::
          .write item.productID (p.stock + item.quantity) false :: evs)

theorem restockItems_spec {updOk : UpdOracle} :
    ∀ {items : List OrderItem} {inv : Inv},
    RestockTraceSpec updOk inv items (restockItems inv updOk items).1 := by
  intro items
  induction items with
  | nil => intro inv; exact .nil inv
  | cons item rest ih =>
    intro inv
    rw [restockItems]
    cases hinv : inv item.productID with
    | none =>
      cases hrec : restockItems inv updOk rest with
      | mk evs inv' =>
        have hi := @ih inv
        rw [hrec] at hi
        exact .readFail inv item rest evs hinv hi
    | some p =>
      simp only []
      by_cases hok : doUpdate updOk item.productID (p.stock + item.quantity) = true
      · rw [if_pos hok]
        cases hrec : restockItems
            (setStockInv inv item.productID (p.stock + item.quantity)) updOk rest with
        | mk evs inv' =>
          have hi := @ih (setStockInv inv item.productID (p.stock + item.quantity))
          rw [hrec] at hi
          exact .writeOk inv item rest p evs hinv hok hi
      · rw [if_neg hok]
        cases hrec : restockItems inv updOk rest with
        | mk evs inv' =>
          have hi := @ih inv
          rw [hrec] at hi
          exact .writeFail inv item rest p evs hinv (by simpa using hok) hi

theorem restockItems_readPids {updOk : UpdOracle} :
    ∀ {items : List OrderItem} {inv : Inv},
    readPids (restockItems inv updOk items).1 =
      items.map (fun it => it.productID) := by
  intro items
  induction items with
  | nil => intro inv; rfl
  | cons item rest ih =>
    intro inv
    rw [restockItems]
    cases hinv : inv item.productID with
    | none =>
      cases hrec : restockItems inv updOk rest with
      | mk evs inv' =>
        have hi := @ih inv
        rw [hrec] at hi
        simpa [readPids, List.filterMap_cons] using hi
    | some p =>
      simp only []
      by_cases hok : doUpdate updOk item.productID (p.stock + item.quantity) = true
      · rw [if_pos hok]
        cases hrec : restockItems
            (setStockInv inv item.productID (p.stock + item.quantity)) updOk rest with
        | mk evs inv' =>
          have hi := @ih (setStockInv inv item.productID (p.stock + item.quantity))
          rw [hrec] at hi
          simpa [readPids, List.filterMap_cons] using hi
      · rw [if_neg hok]
        cases hrec : restockItems inv updOk rest with
        | mk evs inv' =>
          have hi := @ih inv
          rw [hrec] at hi
          simpa [readPids, List.filterMap_cons] using hi

/-- Claim C5 counterexample: the claim quantifies over every order whose
current status is not cancelled, but for a completed one-item order the
cancellation is rejected outright: no fresh per-item read happens (the
trace is empty) and the result is an error, not an order with status
cancelled. -/
theorem updateOrderStatus_cancel_completed_no_restock :
    updateOrderStatus (fun _ => some ⟨1, 10, 5⟩) (fun _ _ => true) true
      (some ⟨9, 7, [⟨1, 2, 10⟩], StatusCompleted⟩) 9 StatusCancelled =
      ([], .error .cannotCancelCompleted) := by
  rfl

/-- Claim C5 (amended: the current status is neither cancelled nor
completed, the completed case being rejected per C6): cancelling performs
the best-effort restock pass — one fresh read per item in request order,
each successful read immediately followed by a stock write of
read-stock + quantity, item failures skipped without aborting — the
cancellation is not rolled back, and the returned order has status
cancelled. -/
theorem updateOrderStatus_cancel_restocks
    (inv : Inv) (updOk : UpdOracle) (cur : Order) (id : Int)
    (hid : 0 < id) (h1 : cur.status ≠ StatusCancelled)
    (h2 : cur.status ≠ StatusCompleted) :
    updateOrderStatus inv updOk true (some cur) id StatusCancelled =
      ((restockItems inv updOk cur.items).1,
        .ok { cur with status := StatusCancelled }) ∧
    RestockTraceSpec updOk inv cur.items
      (updateOrderStatus inv updOk true (some cur) id StatusCancelled).1 ∧
    readPids (updateOrderStatus inv updOk true (some cur) id StatusCancelled).1 =
      cur.items.map (fun it => it.productID) := by
  have hg1 : (cur.status == StatusCompleted && StatusCancelled == StatusCancelled)
      = false := by
    simp [h2]
  have hg2 : (cur.status == StatusCancelled && StatusCancelled != StatusCancelled)
      = false := by
    simp
  have he := @updateOrderStatus_eq_ok inv updOk cur id
    StatusCancelled (by omega) (by decide) hg1 hg2
  rw [if_pos (by simp [h1])] at he
  refine ⟨he, ?_, ?_⟩
  · rw [he]
    exact restockItems_spec
  · rw [he]
    exact restockItems_readPids

/-! ### Claim theorem on `ListOrders` -/

/-- Claim C7: through the handler and the repository combined, a missing or
invalid (unparseable or negative) limit defaults to 10 and a limit above
100 is clamped to 100; a missing or negative offset defaults to 0; and a
query matching no orders returns the empty list, not an error. -/
theorem listOrders_defaults_and_clamps :
    effectiveLimit none = 10 ∧
    (∀ l : Int, l < 0 → effectiveLimit (some l) = 10) ∧
    (∀ l : Int, 100 < l → effectiveLimit (some l) = 100) ∧
    effectiveOffset none = 0 ∧
    (∀ o : Int, o < 0 → effectiveOffset (some o) = 0) ∧
    (∀ (db : List Order) (userID : Int) (limitQ offsetQ : Option Int),
      0 < userID → (∀ o ∈ db, o.userID ≠ userID) →
      listOrdersHandler true db userID limitQ offsetQ = .ok []) := by
  refine ⟨by decide, ?_, ?_, by decide, ?_, ?_⟩
  · intro l hl
    simp [effectiveLimit, handlerLimit, repoLimit, hl]
  · intro l hl
    have h0 : ¬ l < 0 := by omega
    simp [effectiveLimit, handlerLimit, repoLimit, h0, hl]
  · intro o ho
    simp [effectiveOffset, handlerOffset, repoOffset, ho]
  · intro db userID limitQ offsetQ hu hnone
    unfold listOrdersHandler listOrdersUC listOrdersByUserID
    rw [if_neg (by omega)]
    have hfil : db.filter (fun o => o.userID == userID) = [] := by
      rw [List.filter_eq_nil_iff]
      intro o ho
      simp [hnone o ho]
    simp [hfil]

/-! ### Concrete instances (shared by the witnesses) -/

/-- A two-product inventory: product 1 (price 10, stock 5), product 2
(price 20, stock 8). -/
def invW : Inv := fun pid =>
  if pid = 1 then some ⟨1, 10, 5⟩
  else if pid = 2 then some ⟨2, 20, 8⟩
  else none

/-- All stock updates succeed. -/
def updA : UpdOracle := fun _ _ => true

/-- Stock updates succeed only for product 1. -/
def upd1 : UpdOracle := fun pid _ => pid == 1

/-- A valid two-line request (one line per product, prices unset). -/
def ordTwo : Order := ⟨0, 7, [⟨1, 2, 0⟩, ⟨2, 3, 0⟩], ""⟩

/-- Three lines of quantity 2 for product 1 (aggregate 6 against stock 5). -/
def ordThree : Order := ⟨0, 7, [⟨1, 2, 0⟩, ⟨1, 2, 0⟩, ⟨1, 2, 0⟩], ""⟩

/-- The aggregate map the check phase produces for `ordTwo` under `invW`. -/
def accW : List CheckEntry := [⟨1, ⟨1, 10, 5⟩, 2⟩, ⟨2, ⟨2, 20, 8⟩, 3⟩]

/-- A pending two-item order whose first product is unknown to `invW`. -/
def ordPend : Order := ⟨9, 7, [⟨3, 2, 10⟩, ⟨1, 4, 10⟩], StatusPending⟩

theorem createOrder_validation_rejects_witness :
    ∃ e, createOrder invW updA true ⟨0, 0, [⟨1, 2, 0⟩], ""⟩ = ([], .error e) ∧
      e.isValidationErr = true :=
  createOrder_validation_rejects invW updA true ⟨0, 0, [⟨1, 2, 0⟩], ""⟩
    (Or.inl (by decide))

theorem createOrder_insufficient_aggregate_witness :
    (∃ pid', (createOrder invW updA true ordThree).2 =
        .error (.insufficientStock pid')) ∧
    (∀ ev ∈ (createOrder invW updA true ordThree).1, ev.isWrite = false) ∧
    applyEvents invW (createOrder invW updA true ordThree).1 = invW :=
  createOrder_insufficient_aggregate invW updA true ordThree 1 ⟨1, 10, 5⟩
    (by decide) (by decide) (by decide) (by decide) (by decide)

theorem createOrder_reservation_compensates_witness :
    createOrder invW upd1 true ordTwo =
      ([.read 1 true, .read 2 true] ++
        [.write 1 3 true, .write 2 5 false, .write 1 5 true],
       .error (.reservationFailed 2)) ∧
    ∃ pre fail post,
      accW = pre ++ fail :: post ∧
      fail.pid = 2 ∧
      doUpdate upd1 fail.pid (fail.product.stock - fail.orderQuantity) = false ∧
      ∀ x ∈ pre,
        doUpdate upd1 x.pid (x.product.stock - x.orderQuantity) = true ∧
        invW x.pid = some x.product ∧
        Event.write x.pid x.product.stock
          (doUpdate upd1 x.pid x.product.stock) ∈
            [.write 1 3 true, .write 2 5 false, .write 1 5 true] :=
  createOrder_reservation_compensates invW upd1 true ordTwo
    [.read 1 true, .read 2 true] [.write 1 3 true, .write 2 5 false, .write 1 5 true]
    [⟨1, 2, 10⟩, ⟨2, 3, 20⟩] accW 2 (by decide) rfl rfl

theorem createOrder_persistFail_compensatesAll_witness :
    createOrder invW updA false ordTwo =
      ([.read 1 true, .read 2 true] ++ [.write 1 3 true, .write 2 5 true] ++
        compensate updA accW, .error .persistenceFailed) ∧
    accW = accW ∧
    ∀ x ∈ accW,
      invW x.pid = some x.product ∧
      Event.write x.pid x.product.stock (doUpdate updA x.pid x.product.stock) ∈
        (createOrder invW updA false ordTwo).1 :=
  createOrder_persistFail_compensatesAll invW updA ordTwo
    [.read 1 true, .read 2 true] [.write 1 3 true, .write 2 5 true]
    [⟨1, 2, 10⟩, ⟨2, 3, 20⟩] accW accW (by decide) rfl rfl

theorem createOrder_price_snapshot_witness :
    (∀ it ∈ (⟨0, 7, [⟨1, 2, 10⟩, ⟨2, 3, 20⟩], StatusPending⟩ : Order).items,
      ∃ p, invW it.productID = some p ∧ it.price = p.price) ∧
    (⟨0, 7, [⟨1, 2, 10⟩, ⟨2, 3, 20⟩], StatusPending⟩ : Order).items.map
        (fun it => (it.productID, it.quantity)) =
      ordTwo.items.map (fun it => (it.productID, it.quantity)) :=
  createOrder_price_snapshot invW updA true ordTwo
    ⟨0, 7, [⟨1, 2, 10⟩, ⟨2, 3, 20⟩], StatusPending⟩
    [.read 1 true, .read 2 true, .write 1 3 true, .write 2 5 true] rfl

theorem updateOrderStatus_cancel_completed_witness :
    updateOrderStatus invW updA true
      (some ⟨9, 7, [⟨1, 2, 10⟩], StatusCompleted⟩) 9 StatusCancelled =
      ([], .error .cannotCancelCompleted) ∧
    applyEvents invW
      (updateOrderStatus invW updA true
        (some ⟨9, 7, [⟨1, 2, 10⟩], StatusCompleted⟩) 9 StatusCancelled).1 = invW :=
  updateOrderStatus_cancel_completed invW updA true
    ⟨9, 7, [⟨1, 2, 10⟩], StatusCompleted⟩ 9 (by decide) rfl

theorem updateOrderStatus_recancel_noop_witness :
    updateOrderStatus invW updA true
      (some ⟨9, 7, [⟨1, 2, 10⟩], StatusCancelled⟩) 9 StatusCancelled =
      ([], .ok ⟨9, 7, [⟨1, 2, 10⟩], StatusCancelled⟩) ∧
    applyEvents invW
      (updateOrderStatus invW updA true
        (some ⟨9, 7, [⟨1, 2, 10⟩], StatusCancelled⟩) 9 StatusCancelled).1 = invW :=
  updateOrderStatus_recancel_noop invW updA
    ⟨9, 7, [⟨1, 2, 10⟩], StatusCancelled⟩ 9 (by decide) rfl

theorem updateOrderStatus_transition_table_witness :
    (∃ o', (updateOrderStatus (fun _ => none) (fun _ _ => false) true
        (some ⟨1, 1, [], StatusCompleted⟩) 1 StatusPending).2 = .ok o') ↔
      ¬ ((StatusCompleted = StatusCompleted ∧ StatusPending = StatusCancelled) ∨
         (StatusCompleted = StatusCancelled ∧ StatusPending ≠ StatusCancelled)) :=
  updateOrderStatus_transition_table (fun _ => none) (fun _ _ => false)
    ⟨1, 1, [], StatusCompleted⟩ 1 StatusPending (by decide) (by decide) (by decide)

theorem updateOrderStatus_cancel_restocks_witness :
    updateOrderStatus invW updA true (some ordPend) 9 StatusCancelled =
      ((restockItems invW updA ordPend.items).1,
        .ok { ordPend with status := StatusCancelled }) ∧
    RestockTraceSpec updA invW ordPend.items
      (updateOrderStatus invW updA true (some ordPend) 9 StatusCancelled).1 ∧
    readPids (updateOrderStatus invW updA true (some ordPend) 9 StatusCancelled).1 =
      ordPend.items.map (fun it => it.productID) :=
  updateOrderStatus_cancel_restocks invW updA ordPend 9
    (by decide) (by decide) (by decide)

theorem listOrders_defaults_and_clamps_witness :
    effectiveLimit (some 150) = 100 ∧
    effectiveLimit (some (-3)) = 10 ∧
    effectiveOffset (some (-2)) = 0 ∧
    listOrdersHandler true [⟨1, 3, [], StatusPending⟩] 7 (some 150) (some (-2)) =
      .ok [] :=
  ⟨listOrders_defaults_and_clamps.2.2.1 150 (by decide),
   listOrders_defaults_and_clamps.2.1 (-3) (by decide),
   listOrders_defaults_and_clamps.2.2.2.2.1 (-2) (by decide),
   listOrders_defaults_and_clamps.2.2.2.2.2 [⟨1, 3, [], StatusPending⟩] 7
     (some 150) (some (-2)) (by decide) (by decide)⟩

end OrderSvc
